import Mathlib

/-!
Verification of the JoFotara e-invoicing integration (`corex_fotara`).

The development shallowly embeds the Python modules
`jofotara/id_manager.py`, `jofotara/xml_generator.py`, `jofotara/api.py`
and `jofotara/controller.py` as Lean functions and proves the spec's
claims about them.

Conventions of the embedding:
* Python `Decimal` / `float` arithmetic is embedded as exact rationals
  (`ℚ`); a value quantized to nine fractional digits is `n / 10 ^ 9` for
  an integer `n`, and `ROUND_HALF_UP` rounds ties away from zero, as
  `decimal.Decimal.quantize` does.  `ℚ` has no signed zero, so the sign
  of a negative value that quantizes to zero is not represented.
* Python `None` is embedded as `Option.none`; `x or 0` on an optional
  integer becomes `Option.getD x 0`, and the truthiness test of an
  optional string checks for `none` or the empty string.
* Python strings are embedded as `List Char` (wrapped into `String`
  where convenient); the regex class `\s` and `str.strip` are embedded
  over the ASCII whitespace characters.
* Database rows (`tabCompany` counters, Sales Invoice identifier
  fields) are records, and each database write is explicit state
  passing: an operation returns the updated records.
-/

namespace CorexFotara
/-! ### Decimal engine (`xml_generator.py`: `_to_decimal`, `_format_amount`) -/

/-- `ROUND_HALF_UP` of a rational to an integer: ties away from zero,
as in Python's `decimal` module. -/
def roundHalfUp (x : ℚ) : ℤ :=
  if 0 ≤ x then ⌊x + 1 / 2⌋ else -⌊-x + 1 / 2⌋

/-- The scaled integer (value times `10 ^ 9`) of
`Decimal(str(value)).quantize(PRECISION, rounding=ROUND_HALF_UP)`
with `PRECISION = Decimal("0.000000001")`. -/
def scaled9 (x : ℚ) : ℤ := roundHalfUp (x * 10 ^ 9)

/-- `_to_decimal`: quantize a numeric input to nine fractional digits,
half-up (`None` inputs are mapped to zero by the call sites).  This is
the in-range behaviour: under the default decimal context (precision
28) the quantize call signals `InvalidOperation` — which is trapped, so
it raises — as soon as the rounded coefficient exceeds 28 digits, i.e.
for `|value| ≥ 10 ^ 19`; that error path is modelled by
`quantizeInCtx` / `formatAmountCtx` below. -/
def toDecimal9 (x : ℚ) : ℚ := (scaled9 x : ℚ) / 10 ^ 9

/-- The context precision check of `Decimal.quantize`: under the default
context (`getcontext().prec = 28`, `InvalidOperation` trapped) the
operation raises exactly when the rounded coefficient has more than 28
digits.  `some` of the scaled result, `none` for the raise. -/
def quantizeInCtx (x : ℚ) : Option ℤ :=
  if (scaled9 x).natAbs < 10 ^ 28 then some (scaled9 x) else none

/-! ### Decimal digit strings

`format(d, 'f')` on a `Decimal` renders its digits in base ten; the
embedding builds the digit list explicitly. -/

/-- The decimal digit character for `d < 10`. -/
def digitChar (d : Nat) : Char := Char.ofNat (48 + d)

/-- Decimal digits of `n`, least significant first (empty for zero). -/
def natDigitsRev : Nat → List Char
  | 0 => []
  | n + 1 => digitChar ((n + 1) % 10) :: natDigitsRev ((n + 1) / 10)
decreasing_by exact Nat.div_lt_self (Nat.succ_pos n) (by norm_num)

/-- Decimal representation of a natural number, most significant digit
first, `['0']` for zero. -/
def natRepr (n : Nat) : List Char :=
  if n = 0 then ['0'] else (natDigitsRev n).reverse

/-! ### Fixed-point rendering (`xml_generator.py`: `_format_amount`) -/

/-- Left-pad a digit list with zeros to width nine (the fraction digits a
`Decimal` with exponent `-9` renders). -/
def padLeft9 (l : List Char) : List Char := List.replicate (9 - l.length) '0' ++ l

/-- `format(d, 'f')` for the quantized `Decimal` whose scaled value
(value times `10 ^ 9`) is `n`: optional minus sign, the integer-part
digits, a dot, and exactly nine fraction digits. -/
def formatScaled (n : ℤ) : List Char :=
  (if n < 0 then ['-'] else []) ++ natRepr (n.natAbs / 10 ^ 9) ++
    '.' :: padLeft9 (natRepr (n.natAbs % 10 ^ 9))

/-- `decimal_part.ljust(9, '0')[:9]`: right-pad with zeros to width nine,
then truncate to nine characters. -/
def ljustTake9 (l : List Char) : List Char :=
  (l ++ List.replicate (9 - l.length) '0').take 9

/-- `_format_amount`: quantize, render fixed-point (`result`), and if a
dot is present split there and pad/truncate the fraction part to nine
digits, else append nine zero digits. -/
def formatAmount (x : ℚ) : List Char :=
  if '.' ∈ formatScaled (scaled9 x) then
    (formatScaled (scaled9 x)).takeWhile (fun c => decide (c ≠ '.')) ++
      '.' :: ljustTake9 ((formatScaled (scaled9 x)).dropWhile (fun c => decide (c ≠ '.'))).tail
  else
    formatScaled (scaled9 x) ++ '.' :: List.replicate 9 '0'

/-- Whole-string matcher for the regular expression `-?\d+\.\d{9}`:
an optional minus sign, a nonempty run of digits, a dot, and exactly
nine digits. -/
def matchesFixed9 (s : List Char) : Bool :=
  let t := if s.head? = some '-' then s.tail else s
  decide (t.takeWhile Char.isDigit ≠ []) &&
    match t.dropWhile Char.isDigit with
    | '.' :: frac => decide (frac.length = 9) && frac.all Char.isDigit
    | _ => false

/-- `_format_amount` with the decimal-context error path: the rendered
string when the quantize step stays within the 28-digit precision of the
default context, `none` when `_to_decimal` raises `InvalidOperation`
(rounded coefficient of 29 or more digits, `|value| ≥ 10 ^ 19`). -/
def formatAmountCtx (x : ℚ) : Option (List Char) :=
  match quantizeInCtx x with
  | some _ => some (formatAmount x)
  | none => none

/-! ### Document canonicalization (`xml_generator.py`: `_minify_xml`) -/

/-- ASCII whitespace: the characters the regex class `\s` and `strip`
treat as whitespace in the minifier. -/
def isSpaceChar (c : Char) : Bool :=
  c = ' ' || c = '\t' || c = '\n' || c = '\r' || c = '\x0b' || c = '\x0c'

/-- `xml_string.replace('\n', ' ').replace('\r', '').replace('\t', ' ')`. -/
def flattenXml (l : List Char) : List Char :=
  ((l.map fun c => if c = '\n' then ' ' else c).filter fun c => decide (c ≠ '\r')).map
    fun c => if c = '\t' then ' ' else c

/-- Does the list start with a nonempty whitespace run followed by `<`?
This is the continuation a match of `>\s+<` needs after its `>`:
the greedy `\s+` consumes the maximal whitespace run, and the match
succeeds exactly when a `<` follows it. -/
def wsThenLt (l : List Char) : Bool :=
  decide (l.takeWhile isSpaceChar ≠ []) &&
    decide ((l.dropWhile isSpaceChar).head? = some '<')

/-- `re.sub(r'>\s+<', '><', ·)`: scan left to right; at a `>` followed by
whitespace and then `<`, emit `><` and continue after the `<`; otherwise
copy the character and continue. -/
def subTags : List Char → List Char
  | [] => []
  | c :: rest =>
    if c = '>' then
      if wsThenLt rest then '>' :: '<' :: subTags (rest.dropWhile isSpaceChar).tail
      else c :: subTags rest
    else c :: subTags rest
termination_by l => l.length
decreasing_by
  · have h1 : (rest.dropWhile isSpaceChar).length ≤ rest.length :=
      (List.dropWhile_suffix isSpaceChar).length_le
    have h2 : (rest.dropWhile isSpaceChar).tail.length =
        (rest.dropWhile isSpaceChar).length - 1 := List.length_tail _
    simp only [List.length_cons]
    omega
  · simp only [List.length_cons]
    omega
  · simp only [List.length_cons]
    omega

/-- Python `str.strip()`: drop leading and trailing whitespace. -/
def stripEnds (l : List Char) : List Char :=
  ((l.dropWhile isSpaceChar).reverse.dropWhile isSpaceChar).reverse

/-- `_minify_xml`: flatten newlines and tabs to spaces, drop carriage
returns, remove whitespace between adjacent tags, and strip the ends. -/
def minifyXml (l : List Char) : List Char := stripEnds (subTags (flattenXml l))

/-- `_minify_xml` at `String` type. -/
def minifyXmlStr (s : String) : String := ⟨minifyXml s.data⟩

/-! ### Identifier issuer (`id_manager.py`: `JoFotaraIDManager.generate_identifiers`)

The `tabCompany` counter columns and the Sales Invoice identifier fields
are records; each `UPDATE` / `set_value` is explicit state passing.  The
current Jordan business date (`datetime.now(JORDAN_TZ).date()`), its
`YYYY-MM-DD` string and the fresh `uuid4` are arguments: they are the
ambient inputs of one call.  Dates are abstracted as natural numbers. -/

/-- The company columns read and written under the `FOR UPDATE` row lock. -/
structure CompanyCounters where
  abbr : String
  custom_starter_icv : Option Nat
  custom_latest_sent_icv : Option Nat
  custom_last_daily_seq_date : Option Nat
  custom_last_daily_seq_no : Option Nat
deriving DecidableEq

/-- The Sales Invoice identifier fields touched by the issuer. -/
structure InvoiceIds where
  custom_jofotara_id : Option String
  custom_jofotara_uuid : Option String
  custom_jofotara_icv : Option Nat
  custom_jofotara_status : Option String
deriving DecidableEq

/-- Python truthiness of an optional string field, as in
`if invoice_doc.get("custom_jofotara_id"):`. -/
def truthyStr : Option String → Bool
  | none => false
  | some s => !s.isEmpty

/-- The dict `generate_identifiers` returns. -/
structure IdTriple where
  jofotara_id : Option String
  jofotara_uuid : Option String
  jofotara_icv : Option Nat
deriving DecidableEq

/-- Zero left-padding to a given width. -/
def padZeros (w : Nat) (l : List Char) : List Char :=
  List.replicate (w - l.length) '0' ++ l

/-- Python `f"{n:05d}"` for a natural number. -/
def pad5 (n : Nat) : String := ⟨padZeros 5 (natRepr n)⟩

/-- `generate_identifiers`: when the invoice already carries a truthy
`custom_jofotara_id` the stored triple is returned and no state changes;
otherwise the new audit counter `max(starter, latest) + 1` and the daily
sequence (reset to 1 on a date change, else incremented) are computed,
the company counters are updated, and the invoice fields are written with
status `"Queued"`.  Returns (triple, updated company, updated invoice). -/
def generateIdentifiers (inv : InvoiceIds) (company : CompanyCounters)
    (currentDate : Nat) (dateStr : String) (newUuid : String) :
    IdTriple × CompanyCounters × InvoiceIds :=
  if truthyStr inv.custom_jofotara_id then
    (⟨inv.custom_jofotara_id, inv.custom_jofotara_uuid, inv.custom_jofotara_icv⟩, company, inv)
  else
    let starter_icv := company.custom_starter_icv.getD 0
    let latest_icv := company.custom_latest_sent_icv.getD 0
    let new_icv := max starter_icv latest_icv + 1
    let new_daily_seq :=
      match company.custom_last_daily_seq_date with
      | some d => if d = currentDate then company.custom_last_daily_seq_no.getD 0 + 1 else 1
      | none => 1
    let jofotara_id := company.abbr ++ "-" ++ dateStr ++ "-" ++ pad5 new_daily_seq
    (⟨some jofotara_id, some newUuid, some new_icv⟩,
      { company with
          custom_latest_sent_icv := some new_icv,
          custom_last_daily_seq_date := some currentDate,
          custom_last_daily_seq_no := some new_daily_seq },
      { inv with
          custom_jofotara_id := some jofotara_id,
          custom_jofotara_uuid := some newUuid,
          custom_jofotara_icv := some new_icv,
          custom_jofotara_status := some "Queued" })

/-- One allocation request: the invoice submitted, with the ambient date
and fresh uuid of that call. -/
structure AllocCall where
  inv : InvoiceIds
  currentDate : Nat
  dateStr : String
  newUuid : String

/-- The company counters after a sequence of `generate_identifiers` calls. -/
def runAllocs (company : CompanyCounters) : List AllocCall → CompanyCounters
  | [] => company
  | c :: cs =>
    runAllocs (generateIdentifiers c.inv company c.currentDate c.dateStr c.newUuid).2.1 cs

/-! ### Line items and totals (`xml_generator.py`: `_process_line_items`,
`_get_item_tax_rate`, `_calculate_tax`, `_calculate_totals`)

Item rows and invoice tax rows carry rational numbers (the embedding of
the floats `flt` yields); the `Decimal` work routes through `toDecimal9`.
The exact division `line_extension_dec / qty_dec` embeds `Decimal`
division (the 28-significant-digit context rounding of a quotient that
is immediately re-quantized to nine places is not modelled). -/

/-- A Sales Invoice item row (the fields the generator reads). -/
structure RawItem where
  qty : ℚ
  amount : ℚ
  item_tax_template : Option (List ℚ)
  uom : String
  item_name : String

/-- `_get_item_tax_rate`: the summed rates of the item tax template when
present, else the sum of the truthy invoice-level tax rates. -/
def itemTaxRate (invoiceTaxRates : List ℚ) (item : RawItem) : ℚ :=
  match item.item_tax_template with
  | some templateRates => templateRates.sum
  | none => (invoiceTaxRates.filter fun r => decide (r ≠ 0)).sum

/-- `_calculate_tax`: `amount * (to_decimal(rate) / 100)`, quantized. -/
def calculateTax (amount : ℚ) (rate : ℚ) : ℚ :=
  toDecimal9 (amount * (toDecimal9 rate / 100))

/-- The tax category expression of `_process_line_items`:
`"S" if rate > 0 else ("Z" if country == "Jordan" else "O")`. -/
def taxCategory (taxRate : ℚ) (customerCountry : String) : String :=
  if taxRate > 0 then "S" else if customerCountry = "Jordan" then "Z" else "O"

/-- One processed line of `_process_line_items` (the raw decimal values
carried alongside the formatted strings: `_line_extension`,
`_tax_amount`, and the inputs of the formatted fields). -/
structure ProcItem where
  idx : Nat
  qty : ℚ
  unit_price : ℚ
  line_extension : ℚ
  tax_amount : ℚ
  rounding_amount : ℚ
  tax_category : String
  tax_percent : ℚ

/-- The per-item body of `_process_line_items`: absolute quantity, net
unit price (guarded division), line extension recomputed from the
rounded price, tax rate, category, tax and rounding amounts. -/
def processItem (customerCountry : String) (invoiceTaxRates : List ℚ)
    (idx : Nat) (item : RawItem) : ProcItem :=
  let qty := |item.qty|
  let qty_dec := toDecimal9 qty
  let line_extension0 := toDecimal9 |item.amount|
  let unit_price0 := if qty > 0 then line_extension0 / qty_dec else 0
  let unit_price := toDecimal9 unit_price0
  let line_extension := toDecimal9 (qty_dec * unit_price)
  let tax_rate := itemTaxRate invoiceTaxRates item
  let tax_amount := calculateTax line_extension tax_rate
  { idx := idx
    qty := qty_dec
    unit_price := unit_price
    line_extension := line_extension
    tax_amount := tax_amount
    rounding_amount := line_extension + tax_amount
    tax_category := taxCategory tax_rate customerCountry
    tax_percent := tax_rate }

/-- `_process_line_items` over the item table (1-based `enumerate`). -/
def processLineItems (customerCountry : String) (invoiceTaxRates : List ℚ)
    (items : List RawItem) : List ProcItem :=
  items.enum.map fun p => processItem customerCountry invoiceTaxRates (p.1 + 1) p.2

/-- The totals record of `_calculate_totals` (raw decimal values). -/
structure Totals where
  tax_exclusive : ℚ
  tax_inclusive : ℚ
  total_tax : ℚ
  allowance_total : ℚ
  payable : ℚ

/-- `_calculate_totals`: bottom-up sums over the cached lines, the
absolute quantized invoice-level discount, and the payable amount with
its negative-value guard. -/
def calculateTotals (cachedItems : List ProcItem) (discountAmount : ℚ) : Totals :=
  let tax_exclusive := (cachedItems.map fun i => i.line_extension).sum
  let total_tax := (cachedItems.map fun i => i.tax_amount).sum
  let tax_inclusive := tax_exclusive + total_tax
  let allowance_total := |toDecimal9 discountAmount|
  let payable0 := tax_inclusive - allowance_total
  let payable := if payable0 < 0 then 0 else payable0
  { tax_exclusive := tax_exclusive
    tax_inclusive := tax_inclusive
    total_tax := total_tax
    allowance_total := allowance_total
    payable := payable }

/-! ### Transport client and orchestrator (`api.py`: `send_invoice`;
`controller.py`: `process_jofotara_submission`)

The response body is typed with the keys the code reads
(`EINV_RESULTS` with `status` and `ERRORS`, `EINV_QR`, `message`,
`error`); a body that is not valid JSON is wrapped by the client as
`{"raw_response": ...}` and so carries none of those keys. -/

/-- One entry of the `ERRORS` array of an `EINV_RESULTS` payload. -/
structure EinvErrorEntry where
  einv_message : Option String
deriving DecidableEq

/-- The `EINV_RESULTS` object of a response body. -/
structure EinvResults where
  status : Option String
  errors : List EinvErrorEntry
deriving DecidableEq

/-- A parsed JSON response body, restricted to the keys the code reads. -/
structure RespData where
  einv_results : Option EinvResults
  einv_qr : Option String
  message : Option String
  error : Option String
deriving DecidableEq

/-- The wrapped body `{"raw_response": response.text}` used when the
response text is not valid JSON: it has none of the read keys. -/
def rawRespData : RespData := ⟨none, none, none, none⟩

/-- The dict `send_invoice` returns for a completed HTTP exchange. -/
structure SendResult where
  success : Bool
  response : RespData
  error : Option String
deriving DecidableEq

/-- Python `a or b` for an optional string: `None` and `""` are falsy. -/
def pyOrStr (a : Option String) (b : String) : String :=
  match a with
  | some s => if s.isEmpty then b else s
  | none => b

/-- An HTTP reply: the status code, and the parsed JSON body (`none`
when the text was empty or not valid JSON). -/
structure HttpReply where
  status_code : Nat
  body : Option RespData

/-- The response-classification tail of `send_invoice`: status 200 →
`success=True` with the parsed body; any other status → `success=False`
with a best-effort error message from `message`, `error`, or a generic
text carrying the status code. -/
def sendClassify (reply : HttpReply) : SendResult :=
  let response_data := reply.body.getD rawRespData
  if reply.status_code = 200 then
    { success := true, response := response_data, error := none }
  else
    { success := false
      response := response_data
      error := some (pyOrStr response_data.message (pyOrStr response_data.error
        ("API returned status " ++ ⟨natRepr reply.status_code⟩))) }

/-- What `process_jofotara_submission` persists for one completed
attempt: the invoice status written, the QR value written to
`custom_jofotara_qr` (`none` when the branch leaves it untouched), and
the status and error text handed to `_create_jofotara_log` (the log row
itself is inserted only when the company save-logs flag is set). -/
structure SubmissionOutcome where
  invoice_status : String
  qr : Option String
  log_status : String
  log_error : Option String
deriving DecidableEq

/-- The result-interpretation ladder of `process_jofotara_submission`:
transport failure → Error; transport success with embedded business
status exactly `"ERROR"` → Error with the joined `EINV_MESSAGE` texts;
otherwise (PASS, WARNING, or no recognizable business result) → Success
with the returned QR code (empty when absent). -/
def interpretSubmission (result : SendResult) : SubmissionOutcome :=
  if result.success then
    let response_data := result.response
    let einv_results := response_data.einv_results.getD ⟨none, []⟩
    if einv_results.status = some "ERROR" then
      let error_msg := String.intercalate "\n"
        (einv_results.errors.map fun e => e.einv_message.getD "Unknown Error")
      { invoice_status := "Error"
        qr := none
        log_status := "Error"
        log_error := some ("JoFotara Validation Error: " ++ error_msg) }
    else
      { invoice_status := "Success"
        qr := some (pyOrStr response_data.einv_qr "")
        log_status := "Success"
        log_error := none }
  else
    { invoice_status := "Error"
      qr := none
      log_status := "Error"
      log_error := some (result.error.getD "Unknown Connection Error") }

/-! ### The 200-reply business gate at JSON fidelity

`response.json()` can yield any JSON value, not only objects.  The
controller's `.get` chain (`response_data.get("EINV_RESULTS", {})`,
then `.get("status")` on the result) raises `AttributeError` on a
non-object, and the catch-all handler of `process_jofotara_submission`
(case D) then records Error.  A JSON value type makes those inputs
representable. -/

/-- A JSON value, as `response.json()` may return it. -/
inductive Json where
  | null : Json
  | bool (b : Bool) : Json
  | num (n : ℤ) : Json
  | str (s : String) : Json
  | arr (elems : List Json) : Json
  | obj (fields : List (String × Json)) : Json

/-- Python `value.get(key, default)`: a dict returns the stored value or
the default; calling `.get` on any other value raises `AttributeError`
(`none`). -/
def pyDictGet (j : Json) (key : String) (default : Json) : Option Json :=
  match j with
  | Json.obj fields =>
    some (match fields.find? (fun p => p.1 == key) with
      | some p => p.2
      | none => default)
  | _ => none

/-- The comparison `api_status == "ERROR"`: true only for the exact
string. -/
def isErrorStr : Json → Bool
  | Json.str s => s == "ERROR"
  | _ => false

/-- The invoice status `process_jofotara_submission` records for an
HTTP-200 reply carrying this parsed body: the `.get` chain of the
success branch, the business-error branch on status `"ERROR"`, the
success branch otherwise, and the catch-all exception handler that turns
an `AttributeError` from a non-object into Error. -/
def statusFor200Body (body : Json) : String :=
  match pyDictGet body "EINV_RESULTS" (Json.obj []) with
  | none => "Error"
  | some einv_results =>
    match pyDictGet einv_results "status" Json.null with
    | none => "Error"
    | some api_status => if isErrorStr api_status then "Error" else "Success"

/-- The body `send_invoice` hands on for an HTTP 200: the parsed JSON
when the text parses, else the wrapper `{"raw_response": text}`. -/
def parsedOrWrapped (parsed : Option Json) (rawText : String) : Json :=
  match parsed with
  | some j => j
  | none => Json.obj [("raw_response", Json.str rawText)]

/-! ### Proofs -/

theorem roundHalfUp_zero : roundHalfUp 0 = 0 := by
  unfold roundHalfUp
  rw [if_pos le_rfl]
  norm_num

theorem scaled9_zero : scaled9 0 = 0 := by
  unfold scaled9
  rw [zero_mul]
  exact roundHalfUp_zero

theorem toDecimal9_zero : toDecimal9 0 = 0 := by
  unfold toDecimal9
  rw [scaled9_zero]
  norm_num

theorem digitChar_isDigit {d : Nat} (hd : d < 10) : (digitChar d).isDigit = true := by
  interval_cases d <;> decide

theorem natDigitsRev_isDigit : ∀ f n, n ≤ f → ∀ c ∈ natDigitsRev n, c.isDigit = true := by
  intro f
  induction f with
  | zero =>
    intro n hn c hc
    interval_cases n
    simp [natDigitsRev] at hc
  | succ f ih =>
    intro n hn c hc
    match n with
    | 0 => simp [natDigitsRev] at hc
    | m + 1 =>
      rw [natDigitsRev] at hc
      rcases List.mem_cons.mp hc with h | h
      · subst h
        exact digitChar_isDigit (Nat.mod_lt _ (by norm_num))
      · have hlt : (m + 1) / 10 < m + 1 := Nat.div_lt_self (Nat.succ_pos m) (by norm_num)
        exact ih ((m + 1) / 10) (by omega) c h

theorem natDigitsRev_length_le : ∀ f n k, n ≤ f → n < 10 ^ k → (natDigitsRev n).length ≤ k := by
  intro f
  induction f with
  | zero =>
    intro n k hn _
    interval_cases n
    simp [natDigitsRev]
  | succ f ih =>
    intro n k hn hk
    match n with
    | 0 => simp [natDigitsRev]
    | m + 1 =>
      rw [natDigitsRev]
      have hkpos : k ≠ 0 := by
        intro h
        rw [h, pow_zero] at hk
        omega
      obtain ⟨k', rfl⟩ : ∃ k', k = k' + 1 := ⟨k - 1, by omega⟩
      have hdiv : (m + 1) / 10 < 10 ^ k' := by
        rw [Nat.div_lt_iff_lt_mul (by norm_num : 0 < 10)]
        calc m + 1 < 10 ^ (k' + 1) := hk
          _ = 10 ^ k' * 10 := by ring
      have hlt : (m + 1) / 10 < m + 1 := Nat.div_lt_self (Nat.succ_pos m) (by norm_num)
      have := ih ((m + 1) / 10) k' (by omega) hdiv
      simpa using Nat.succ_le_succ this

theorem natRepr_ne_nil (n : Nat) : natRepr n ≠ [] := by
  unfold natRepr
  split
  · simp
  · intro h
    match hm : n, ‹n ≠ 0› with
    | m + 1, _ =>
      rw [natDigitsRev] at h
      simp at h

theorem natRepr_isDigit (n : Nat) : ∀ c ∈ natRepr n, c.isDigit = true := by
  intro c hc
  unfold natRepr at hc
  split at hc
  · simp at hc
    subst hc
    decide
  · rw [List.mem_reverse] at hc
    exact natDigitsRev_isDigit n n le_rfl c hc

theorem natRepr_length_le {n k : Nat} (hk : 0 < k) (hn : n < 10 ^ k) :
    (natRepr n).length ≤ k := by
  unfold natRepr
  split
  · simpa using hk
  · rw [List.length_reverse]
    exact natDigitsRev_length_le n n k le_rfl hn

theorem takeWhile_append_stop {p : Char → Bool} {A B : List Char} {b : Char}
    (hA : ∀ c ∈ A, p c = true) (hb : p b = false) :
    (A ++ b :: B).takeWhile p = A ∧ (A ++ b :: B).dropWhile p = b :: B := by
  induction A with
  | nil =>
    constructor
    · simp [List.takeWhile_cons, hb]
    · simp [List.dropWhile_cons, hb]
  | cons a A ih =>
    have ha : p a = true := hA a (by simp)
    have ih' := ih (fun c hc => hA c (by simp [hc]))
    constructor
    · simpa [List.takeWhile_cons, ha] using ih'.1
    · simpa [List.dropWhile_cons, ha] using ih'.2

theorem padLeft9_length {l : List Char} (hl : l.length ≤ 9) :
    (padLeft9 l).length = 9 := by
  simp [padLeft9]
  omega

theorem padLeft9_isDigit {l : List Char} (hl : ∀ c ∈ l, c.isDigit = true) :
    ∀ c ∈ padLeft9 l, c.isDigit = true := by
  intro c hc
  rcases List.mem_append.mp hc with h | h
  · rw [List.eq_of_mem_replicate h]
    decide
  · exact hl c h

theorem ljustTake9_self {l : List Char} (hl : l.length = 9) : ljustTake9 l = l := by
  simp [ljustTake9, hl]

/-- Whenever the quantize step completes, the rendered string matches
`-?\d+\.\d{9}`: a fixed-point decimal with exactly nine fractional
digits and no scientific notation. -/
theorem matchesFixed9_formatAmount (x : ℚ) : matchesFixed9 (formatAmount x) = true := by
  unfold formatAmount
  generalize scaled9 x = n
  set A : List Char := natRepr (n.natAbs / 10 ^ 9) with hA
  set B : List Char := padLeft9 (natRepr (n.natAbs % 10 ^ 9)) with hB
  have hAdig : ∀ c ∈ A, c.isDigit = true := natRepr_isDigit _
  have hAne : A ≠ [] := natRepr_ne_nil _
  have hBdig : ∀ c ∈ B, c.isDigit = true :=
    padLeft9_isDigit (natRepr_isDigit _)
  have hBlen : B.length = 9 := by
    refine padLeft9_length (natRepr_length_le (by norm_num) ?_)
    exact Nat.mod_lt _ (by norm_num)
  have hform : formatScaled n = (if n < 0 then ['-'] else []) ++ A ++ '.' :: B := rfl
  have hdotstop : decide (('.' : Char) ≠ '.') = false := by decide
  have hAnotdot : ∀ c ∈ A, decide (c ≠ '.') = true := by
    intro c hc
    have hd := hAdig c hc
    simp only [decide_eq_true_eq]
    intro h
    subst h
    simp at hd
  clear_value A B
  -- The digit run of the matcher.
  have hdig :
      (A ++ '.' :: B).takeWhile Char.isDigit = A ∧
        (A ++ '.' :: B).dropWhile Char.isDigit = '.' :: B :=
    takeWhile_append_stop hAdig (by decide)
  by_cases hneg : n < 0
  · -- Negative: `format` output is '-' :: digits ++ '.' :: fraction.
    have hr : formatScaled n = ('-' :: A) ++ '.' :: B := by
      rw [hform, if_pos hneg]
      simp
    have hsign : ∀ c ∈ '-' :: A, decide (c ≠ '.') = true := by
      intro c hc
      rcases List.mem_cons.mp hc with h | h
      · subst h
        decide
      · exact hAnotdot c h
    have hsplit :
        (('-' :: A) ++ '.' :: B).takeWhile (fun c => decide (c ≠ '.')) = '-' :: A ∧
          (('-' :: A) ++ '.' :: B).dropWhile (fun c => decide (c ≠ '.')) = '.' :: B :=
      takeWhile_append_stop hsign hdotstop
    have hmem : '.' ∈ formatScaled n := by
      rw [hr]
      simp
    have hval :
        (if '.' ∈ formatScaled n then
            (formatScaled n).takeWhile (fun c => decide (c ≠ '.')) ++
              '.' :: ljustTake9 ((formatScaled n).dropWhile (fun c => decide (c ≠ '.'))).tail
          else formatScaled n ++ '.' :: List.replicate 9 '0') = ('-' :: A) ++ '.' :: B := by
      rw [if_pos hmem, hr, hsplit.1, hsplit.2]
      simp [ljustTake9_self hBlen]
    rw [hval]
    unfold matchesFixed9
    simp only [List.cons_append, List.head?_cons, List.tail_cons, if_pos]
    rw [hdig.1, hdig.2]
    simp [hAne, hBlen, List.all_eq_true.mpr hBdig]
  · -- Non-negative: no sign character.
    have hr : formatScaled n = A ++ '.' :: B := by
      rw [hform, if_neg hneg]
      simp
    have hsplit :
        (A ++ '.' :: B).takeWhile (fun c => decide (c ≠ '.')) = A ∧
          (A ++ '.' :: B).dropWhile (fun c => decide (c ≠ '.')) = '.' :: B :=
      takeWhile_append_stop hAnotdot hdotstop
    have hmem : '.' ∈ formatScaled n := by
      rw [hr]
      simp
    have hval :
        (if '.' ∈ formatScaled n then
            (formatScaled n).takeWhile (fun c => decide (c ≠ '.')) ++
              '.' :: ljustTake9 ((formatScaled n).dropWhile (fun c => decide (c ≠ '.'))).tail
          else formatScaled n ++ '.' :: List.replicate 9 '0') = A ++ '.' :: B := by
      rw [if_pos hmem, hr, hsplit.1, hsplit.2]
      simp [ljustTake9_self hBlen]
    rw [hval]
    unfold matchesFixed9
    have hhead : ¬((A ++ '.' :: B).head? = some '-') := by
      cases A with
      | nil => exact absurd rfl hAne
      | cons a A' =>
        have hd : a.isDigit = true := hAdig a (by simp)
        simp only [List.cons_append, List.head?_cons]
        intro h
        rw [Option.some_inj] at h
        subst h
        simp at hd
    simp only [if_neg hhead]
    rw [hdig.1, hdig.2]
    simp [hAne, hBlen, List.all_eq_true.mpr hBdig]

/-- C7 counterexample: at input `10 ^ 19` the quantize step's rounded
coefficient is `10 ^ 28` — 29 digits, beyond the default context's
precision of 28 — so `_to_decimal` raises `InvalidOperation` and
`_format_amount` returns no string at all. -/
theorem C7_counterexample : formatAmountCtx ((10 : ℚ) ^ 19) = none := by
  have hval : scaled9 ((10 : ℚ) ^ 19) = 10 ^ 28 := by
    unfold scaled9 roundHalfUp
    rw [if_pos (by positivity)]
    have h1 : (10 : ℚ) ^ 19 * 10 ^ 9 = ((10 ^ 28 : ℤ) : ℚ) := by
      push_cast
      ring
    rw [h1, Int.floor_int_add]
    norm_num
  unfold formatAmountCtx quantizeInCtx
  rw [hval]
  norm_num

/-- C7 (amended): for every finite numeric input whose quantized
coefficient stays within the default context's 28-digit precision
(`|value| < 10 ^ 19`), `_format_amount` returns a string and it matches
`-?\d+\.\d{9}`; beyond that bound the quantize step raises instead. -/
theorem C7_format_amount_pattern_ctx (x : ℚ)
    (h : (scaled9 x).natAbs < 10 ^ 28) :
    formatAmountCtx x = some (formatAmount x) ∧
      matchesFixed9 (formatAmount x) = true := by
  constructor
  · unfold formatAmountCtx quantizeInCtx
    rw [if_pos h]
  · exact matchesFixed9_formatAmount x

/-- C7 witness: input 20 is quantized within the context bound and the
rendered string matches the pattern. -/
theorem C7_pattern_witness :
    (scaled9 (20 : ℚ)).natAbs < 10 ^ 28 ∧
      (formatAmountCtx (20 : ℚ) = some (formatAmount 20) ∧
        matchesFixed9 (formatAmount 20) = true) :=
  ⟨by norm_num [scaled9, roundHalfUp],
    C7_format_amount_pattern_ctx 20 (by norm_num [scaled9, roundHalfUp])⟩

theorem isSpaceChar_lt : isSpaceChar '<' = false := by decide

theorem isSpaceChar_gt : isSpaceChar '>' = false := by decide

theorem ne_gt_of_isSpaceChar {c : Char} (h : isSpaceChar c = true) : c ≠ '>' := by
  intro hc
  subst hc
  simp [isSpaceChar_gt] at h

theorem dropWhile_head_false {p : Char → Bool} :
    ∀ {l : List Char} {d : Char} {t : List Char}, l.dropWhile p = d :: t → p d = false := by
  intro l
  induction l with
  | nil => intro d t h; simp at h
  | cons a r ih =>
    intro d t h
    rw [List.dropWhile_cons] at h
    by_cases hp : p a = true
    · rw [if_pos hp] at h
      exact ih h
    · rw [if_neg hp] at h
      injection h with h1 h2
      subst h1
      simpa using hp

theorem dropWhile_dropWhile (p : Char → Bool) (l : List Char) :
    (l.dropWhile p).dropWhile p = l.dropWhile p := by
  induction l with
  | nil => rfl
  | cons c r ih =>
    rw [List.dropWhile_cons]
    by_cases hp : p c = true
    · rw [if_pos hp]
      exact ih
    · rw [if_neg hp, List.dropWhile_cons, if_neg hp]

theorem subTags_nil : subTags [] = [] := by
  rw [subTags]

theorem subTags_cons (c : Char) (rest : List Char) :
    subTags (c :: rest) =
      if c = '>' then
        if wsThenLt rest then '>' :: '<' :: subTags (rest.dropWhile isSpaceChar).tail
        else c :: subTags rest
      else c :: subTags rest := by
  rw [subTags]

theorem subTags_cons_ne (c : Char) (rest : List Char) (hc : c ≠ '>') :
    subTags (c :: rest) = c :: subTags rest := by
  rw [subTags_cons, if_neg hc]

theorem subTags_cons_gt_pos (rest : List Char) (hw : wsThenLt rest = true) :
    subTags ('>' :: rest) = '>' :: '<' :: subTags (rest.dropWhile isSpaceChar).tail := by
  rw [subTags_cons, if_pos rfl, if_pos hw]

theorem subTags_cons_gt_neg (rest : List Char) (hw : wsThenLt rest = false) :
    subTags ('>' :: rest) = '>' :: subTags rest := by
  rw [subTags_cons, if_pos rfl, hw]
  simp

/-- The scan copies any block without `>` unchanged and continues. -/
theorem subTags_append_no_gt :
    ∀ {a : List Char}, (∀ c ∈ a, c ≠ '>') → ∀ b, subTags (a ++ b) = a ++ subTags b := by
  intro a
  induction a with
  | nil => intro _ b; rfl
  | cons c a' ih =>
    intro h b
    have hc : c ≠ '>' := h c (by simp)
    rw [List.cons_append, subTags_cons_ne c _ hc, ih (fun d hd => h d (by simp [hd])) b]
    simp

/-- The scan preserves the first character of its input. -/
theorem subTags_cons_ex (c : Char) (t : List Char) :
    ∃ t', subTags (c :: t) = c :: t' := by
  by_cases hc : c = '>'
  · subst hc
    by_cases hw : wsThenLt t = true
    · exact ⟨_, subTags_cons_gt_pos t hw⟩
    · exact ⟨_, subTags_cons_gt_neg t (by simpa using hw)⟩
  · exact ⟨_, subTags_cons_ne c t hc⟩

theorem wsThenLt_nil : wsThenLt [] = false := by decide

/-- If the head of `l` is not whitespace, no `>\s+<` continuation starts at `l`. -/
theorem wsThenLt_cons_not_ws {c : Char} (t : List Char) (hc : isSpaceChar c = false) :
    wsThenLt (c :: t) = false := by
  unfold wsThenLt
  rw [List.takeWhile_cons, if_neg (by simp [hc])]
  simp

theorem wsThenLt_spec {l : List Char} (h : wsThenLt l = true) :
    l.takeWhile isSpaceChar ≠ [] ∧ (l.dropWhile isSpaceChar).head? = some '<' := by
  unfold wsThenLt at h
  rw [Bool.and_eq_true, decide_eq_true_eq, decide_eq_true_eq] at h
  exact h

theorem takeWhile_all {p : Char → Bool} {l : List Char} (h : ∀ c ∈ l, p c = true) :
    l.takeWhile p = l := by
  induction l with
  | nil => rfl
  | cons c r ih =>
    rw [List.takeWhile_cons, if_pos (h c (by simp)), ih (fun d hd => h d (by simp [hd]))]

theorem dropWhile_all {p : Char → Bool} {l : List Char} (h : ∀ c ∈ l, p c = true) :
    l.dropWhile p = [] := by
  induction l with
  | nil => rfl
  | cons c r ih =>
    rw [List.dropWhile_cons, if_pos (h c (by simp))]
    exact ih (fun d hd => h d (by simp [hd]))

/-- After one left-to-right pass of the substitution, no `>\s+<`
continuation can start at the output of the remaining scan: the
substituted text never recreates a whitespace gap. -/
theorem wsThenLt_subTags {rest : List Char} (hw : wsThenLt rest = false) :
    wsThenLt (subTags rest) = false := by
  rcases htw : rest.takeWhile isSpaceChar with _ | ⟨w, ws'⟩
  · -- no leading whitespace run
    cases rest with
    | nil => rw [subTags_nil]; exact wsThenLt_nil
    | cons d r' =>
      have hd : isSpaceChar d = false := by
        by_contra hcon
        rw [List.takeWhile_cons, if_pos (by simpa using hcon)] at htw
        exact List.cons_ne_nil _ _ htw
      obtain ⟨t', ht'⟩ := subTags_cons_ex d r'
      rw [ht']
      exact wsThenLt_cons_not_ws t' hd
  · -- a nonempty whitespace run, so the char after it is not `<`
    have hsplit : (w :: ws') ++ rest.dropWhile isSpaceChar = rest := by
      rw [← htw]
      exact List.takeWhile_append_dropWhile isSpaceChar rest
    have hwsall : ∀ c ∈ w :: ws', isSpaceChar c = true := by
      intro c hc
      exact List.mem_takeWhile_imp (htw ▸ hc : c ∈ rest.takeWhile isSpaceChar)
    have hngt : ∀ c ∈ w :: ws', c ≠ '>' := fun c hc => ne_gt_of_isSpaceChar (hwsall c hc)
    rcases hdw : rest.dropWhile isSpaceChar with _ | ⟨e, r₃⟩
    · -- the whole rest is whitespace
      have hval : subTags rest = w :: ws' := by
        conv_lhs => rw [← hsplit, hdw]
        rw [subTags_append_no_gt hngt [], subTags_nil, List.append_nil]
      rw [hval]
      unfold wsThenLt
      rw [dropWhile_all hwsall]
      simp
    · have he : isSpaceChar e = false := dropWhile_head_false hdw
      have hene : e ≠ '<' := by
        unfold wsThenLt at hw
        rw [htw, hdw] at hw
        simp at hw
        exact hw
      obtain ⟨t₃, ht₃⟩ := subTags_cons_ex e r₃
      have hval : subTags rest = (w :: ws') ++ e :: t₃ := by
        conv_lhs => rw [← hsplit, hdw]
        rw [subTags_append_no_gt hngt (e :: r₃), ht₃]
      rw [hval]
      have hstop :
          ((w :: ws') ++ e :: t₃).takeWhile isSpaceChar = w :: ws' ∧
            ((w :: ws') ++ e :: t₃).dropWhile isSpaceChar = e :: t₃ :=
        takeWhile_append_stop hwsall he
      unfold wsThenLt
      rw [hstop.2]
      simp [hene]

/-- One pass of the substitution reaches a fixed point: a second pass
finds no remaining `>\s+<` gap. -/
theorem subTags_idem_aux :
    ∀ f, ∀ l : List Char, l.length ≤ f → subTags (subTags l) = subTags l := by
  intro f
  induction f with
  | zero =>
    intro l hl
    rw [List.eq_nil_of_length_eq_zero (Nat.le_zero.mp hl), subTags_nil, subTags_nil]
  | succ f ih =>
    intro l hl
    cases l with
    | nil => rw [subTags_nil, subTags_nil]
    | cons c rest =>
      have hrest : rest.length ≤ f := by
        simp only [List.length_cons] at hl
        omega
      by_cases hc : c = '>'
      · subst hc
        by_cases hw : wsThenLt rest = true
        · rw [subTags_cons_gt_pos rest hw]
          have hw2 : wsThenLt ('<' :: subTags (rest.dropWhile isSpaceChar).tail) = false :=
            wsThenLt_cons_not_ws _ isSpaceChar_lt
          rw [subTags_cons_gt_neg _ hw2, subTags_cons_ne '<' _ (by decide)]
          have hlen : (rest.dropWhile isSpaceChar).tail.length ≤ f := by
            have h1 : (rest.dropWhile isSpaceChar).length ≤ rest.length :=
              (List.dropWhile_suffix isSpaceChar).length_le
            have h2 := List.length_tail (rest.dropWhile isSpaceChar)
            omega
          rw [ih _ hlen]
        · have hwf : wsThenLt rest = false := by simpa using hw
          rw [subTags_cons_gt_neg rest hwf,
            subTags_cons_gt_neg _ (wsThenLt_subTags hwf), ih rest hrest]
      · rw [subTags_cons_ne c rest hc, subTags_cons_ne c _ hc, ih rest hrest]

theorem subTags_idem (l : List Char) : subTags (subTags l) = subTags l :=
  subTags_idem_aux l.length l le_rfl

/-- A fixed point of the substitution keeps being one after a trailing
whitespace block is removed. -/
theorem subTags_fixed_of_ws_suffix :
    ∀ f, ∀ a b : List Char, a.length ≤ f → (∀ c ∈ b, isSpaceChar c = true) →
      subTags (a ++ b) = a ++ b → subTags a = a := by
  intro f
  induction f with
  | zero =>
    intro a b hl _ _
    rw [List.eq_nil_of_length_eq_zero (Nat.le_zero.mp hl), subTags_nil]
  | succ f ih =>
    intro a b hl hb hfix
    cases a with
    | nil => rw [subTags_nil]
    | cons c r =>
      have hr : r.length ≤ f := by
        simp only [List.length_cons] at hl
        omega
      by_cases hc : c = '>'
      · subst hc
        by_cases hw : wsThenLt (r ++ b) = true
        · -- impossible: the fixed-point equation would put `<` where whitespace is
          exfalso
          obtain ⟨hne, hhd⟩ := wsThenLt_spec hw
          rw [List.cons_append, subTags_cons_gt_pos _ hw] at hfix
          injection hfix with h1 h2
          cases hrb : r ++ b with
          | nil =>
            rw [hrb] at h2
            exact List.cons_ne_nil _ _ h2
          | cons d t =>
            rw [hrb] at h2 hne
            have hd : isSpaceChar d = true := by
              by_contra hcon
              rw [List.takeWhile_cons, if_neg (by simpa using hcon)] at hne
              exact hne rfl
            injection h2 with h3 h4
            rw [← h3] at hd
            simp [isSpaceChar_lt] at hd
        · have hwf : wsThenLt (r ++ b) = false := by simpa using hw
          rw [List.cons_append, subTags_cons_gt_neg _ hwf] at hfix
          injection hfix with h1 h2
          have hrfix : subTags r = r := ih r b hr hb h2
          have hwr : wsThenLt r = false := by
            by_contra hcon
            have hwr' : wsThenLt r = true := by simpa using hcon
            obtain ⟨hne, hhd⟩ := wsThenLt_spec hwr'
            rcases hdw : r.dropWhile isSpaceChar with _ | ⟨e, r₂⟩
            · rw [hdw] at hhd
              simp at hhd
            · rw [hdw] at hhd
              have he : e = '<' := by simpa using hhd
              subst he
              have hsplit : r.takeWhile isSpaceChar ++ '<' :: r₂ = r := by
                rw [← hdw]
                exact List.takeWhile_append_dropWhile _ r
              have htw_all : ∀ c ∈ r.takeWhile isSpaceChar, isSpaceChar c = true :=
                fun c hc => List.mem_takeWhile_imp hc
              have hstop :
                  (r.takeWhile isSpaceChar ++ '<' :: (r₂ ++ b)).takeWhile isSpaceChar
                      = r.takeWhile isSpaceChar ∧
                    (r.takeWhile isSpaceChar ++ '<' :: (r₂ ++ b)).dropWhile isSpaceChar
                      = '<' :: (r₂ ++ b) :=
                takeWhile_append_stop htw_all isSpaceChar_lt
              have hrb : r ++ b = r.takeWhile isSpaceChar ++ '<' :: (r₂ ++ b) := by
                conv_lhs => rw [← hsplit]
                simp [List.append_assoc]
              have htrue : wsThenLt (r ++ b) = true := by
                unfold wsThenLt
                rw [hrb, hstop.1, hstop.2]
                simp [hne]
              rw [htrue] at hwf
              exact absurd hwf (by simp)
          rw [subTags_cons_gt_neg r hwr, hrfix]
      · rw [List.cons_append, subTags_cons_ne c _ hc] at hfix
        injection hfix with h1 h2
        rw [subTags_cons_ne c r hc, ih r b hr hb h2]

theorem stripEnds_prefix (l : List Char) : stripEnds l <+: l.dropWhile isSpaceChar := by
  have h : (l.dropWhile isSpaceChar).reverse.dropWhile isSpaceChar <:+
      (l.dropWhile isSpaceChar).reverse := List.dropWhile_suffix _
  have h2 := List.reverse_prefix.mpr h
  simpa [stripEnds] using h2

theorem dropWhile_stripEnds (l : List Char) :
    (stripEnds l).dropWhile isSpaceChar = stripEnds l := by
  cases hst : stripEnds l with
  | nil => rfl
  | cons c w =>
    have hpre : stripEnds l <+: l.dropWhile isSpaceChar := stripEnds_prefix l
    rw [hst] at hpre
    obtain ⟨t, ht⟩ := hpre
    have hdw : l.dropWhile isSpaceChar = c :: (w ++ t) := by
      rw [← ht]
      simp
    have hc : isSpaceChar c = false := dropWhile_head_false hdw
    rw [List.dropWhile_cons, if_neg (by simp [hc])]

theorem dropWhile_reverse_stripEnds (l : List Char) :
    (stripEnds l).reverse.dropWhile isSpaceChar = (stripEnds l).reverse := by
  have h : (stripEnds l).reverse =
      (l.dropWhile isSpaceChar).reverse.dropWhile isSpaceChar := by
    simp [stripEnds]
  rw [h]
  exact dropWhile_dropWhile _ _

theorem stripEnds_idem (l : List Char) : stripEnds (stripEnds l) = stripEnds l := by
  have h : stripEnds (stripEnds l) =
      (((stripEnds l).dropWhile isSpaceChar).reverse.dropWhile isSpaceChar).reverse := rfl
  rw [h, dropWhile_stripEnds, dropWhile_reverse_stripEnds, List.reverse_reverse]

theorem mem_subTags_aux :
    ∀ f, ∀ l : List Char, l.length ≤ f → ∀ c ∈ subTags l, c ∈ l := by
  intro f
  induction f with
  | zero =>
    intro l hl c hc
    rw [List.eq_nil_of_length_eq_zero (Nat.le_zero.mp hl), subTags_nil] at hc
    simp at hc
  | succ f ih =>
    intro l hl c hc
    cases l with
    | nil =>
      rw [subTags_nil] at hc
      simp at hc
    | cons d rest =>
      have hrest : rest.length ≤ f := by
        simp only [List.length_cons] at hl
        omega
      by_cases hd : d = '>'
      · subst hd
        by_cases hw : wsThenLt rest = true
        · rw [subTags_cons_gt_pos rest hw] at hc
          obtain ⟨hne, hhd⟩ := wsThenLt_spec hw
          have hsuffix : rest.dropWhile isSpaceChar <:+ rest := List.dropWhile_suffix _
          rcases List.mem_cons.mp hc with rfl | hc2
          · simp
          rcases List.mem_cons.mp hc2 with rfl | hc3
          · -- the emitted '<' was the '<' that closed the matched gap
            rcases hdw : rest.dropWhile isSpaceChar with _ | ⟨e, r₂⟩
            · rw [hdw] at hhd
              simp at hhd
            · rw [hdw] at hhd
              have he : e = '<' := by simpa using hhd
              subst he
              have : '<' ∈ rest := hsuffix.subset (by rw [hdw]; simp)
              simp [this]
          · have hlen : (rest.dropWhile isSpaceChar).tail.length ≤ f := by
              have h1 := hsuffix.length_le
              have h2 := List.length_tail (rest.dropWhile isSpaceChar)
              omega
            have hmem := ih _ hlen c hc3
            have : c ∈ rest :=
              hsuffix.subset ((List.tail_sublist (rest.dropWhile isSpaceChar)).subset hmem)
            simp [this]
        · have hwf : wsThenLt rest = false := by simpa using hw
          rw [subTags_cons_gt_neg rest hwf] at hc
          rcases List.mem_cons.mp hc with rfl | hc2
          · simp
          · simp [ih rest hrest c hc2]
      · rw [subTags_cons_ne d rest hd] at hc
        rcases List.mem_cons.mp hc with rfl | hc2
        · simp
        · simp [ih rest hrest c hc2]

theorem mem_subTags {l : List Char} {c : Char} (hc : c ∈ subTags l) : c ∈ l :=
  mem_subTags_aux l.length l le_rfl c hc

theorem mem_stripEnds {l : List Char} {c : Char} (hc : c ∈ stripEnds l) : c ∈ l := by
  have hpre := stripEnds_prefix l
  exact (List.dropWhile_suffix isSpaceChar).subset (hpre.subset hc)

theorem flattenXml_no_bad (l : List Char) :
    ∀ c ∈ flattenXml l, c ≠ '\n' ∧ c ≠ '\r' ∧ c ≠ '\t' := by
  intro c hc
  unfold flattenXml at hc
  simp only [List.mem_map, List.mem_filter, decide_eq_true_eq] at hc
  obtain ⟨d, ⟨⟨e, hel, hde⟩, hdr⟩, hcd⟩ := hc
  subst hcd
  subst hde
  by_cases he : e = '\n'
  · subst he
    refine ⟨?_, ?_, ?_⟩ <;> simp
  · rw [if_neg he] at hdr ⊢
    by_cases het : e = '\t'
    · subst het
      refine ⟨?_, ?_, ?_⟩ <;> simp
    · rw [if_neg het]
      exact ⟨he, hdr, het⟩

theorem flattenXml_eq_self :
    ∀ {l : List Char}, (∀ c ∈ l, c ≠ '\n' ∧ c ≠ '\r' ∧ c ≠ '\t') → flattenXml l = l := by
  intro l
  induction l with
  | nil => intro _; rfl
  | cons c r ih =>
    intro h
    obtain ⟨h1, h2, h3⟩ := h c (by simp)
    have htail : flattenXml r = r := ih (fun d hd => h d (by simp [hd]))
    unfold flattenXml at htail ⊢
    rw [List.map_cons, if_neg h1, List.filter_cons, if_pos (by simp [h2]),
      List.map_cons, if_neg h3, htail]

theorem minifyXml_no_bad (l : List Char) :
    ∀ c ∈ minifyXml l, c ≠ '\n' ∧ c ≠ '\r' ∧ c ≠ '\t' := by
  intro c hc
  exact flattenXml_no_bad l c (mem_subTags (mem_stripEnds hc))

/-- Stripping whitespace off both ends of a fixed point of the gap
substitution yields a fixed point again. -/
theorem subTags_stripEnds_fixed {y : List Char} (hfix : subTags y = y) :
    subTags (stripEnds y) = stripEnds y := by
  -- drop the leading whitespace
  have hsplit : y.takeWhile isSpaceChar ++ y.dropWhile isSpaceChar = y :=
    List.takeWhile_append_dropWhile _ y
  have hngt : ∀ c ∈ y.takeWhile isSpaceChar, c ≠ '>' :=
    fun c hc => ne_gt_of_isSpaceChar (List.mem_takeWhile_imp hc)
  have hdist := subTags_append_no_gt hngt (y.dropWhile isSpaceChar)
  rw [hsplit, hfix] at hdist
  have hlead : subTags (y.dropWhile isSpaceChar) = y.dropWhile isSpaceChar :=
    (List.append_cancel_left (hsplit.trans hdist)).symm
  -- drop the trailing whitespace
  have h3 : (y.dropWhile isSpaceChar).reverse.takeWhile isSpaceChar ++
      (y.dropWhile isSpaceChar).reverse.dropWhile isSpaceChar =
      (y.dropWhile isSpaceChar).reverse :=
    List.takeWhile_append_dropWhile _ _
  have h4 := congrArg List.reverse h3
  rw [List.reverse_append, List.reverse_reverse] at h4
  have hdecomp : y.dropWhile isSpaceChar =
      stripEnds y ++ ((y.dropWhile isSpaceChar).reverse.takeWhile isSpaceChar).reverse :=
    h4.symm
  have hws : ∀ c ∈ ((y.dropWhile isSpaceChar).reverse.takeWhile isSpaceChar).reverse,
      isSpaceChar c = true := by
    intro c hc
    rw [List.mem_reverse] at hc
    exact List.mem_takeWhile_imp hc
  exact subTags_fixed_of_ws_suffix (stripEnds y).length (stripEnds y) _ le_rfl hws
    (by rw [← hdecomp]; exact hlead)

/-- The minified document is a fixed point of the gap substitution. -/
theorem subTags_minifyXml (l : List Char) : subTags (minifyXml l) = minifyXml l :=
  subTags_stripEnds_fixed (subTags_idem (flattenXml l))

theorem minifyXml_idem (l : List Char) : minifyXml (minifyXml l) = minifyXml l := by
  have hflat : flattenXml (minifyXml l) = minifyXml l :=
    flattenXml_eq_self (minifyXml_no_bad l)
  show stripEnds (subTags (flattenXml (minifyXml l))) = minifyXml l
  rw [hflat, subTags_minifyXml]
  exact stripEnds_idem _

/-- Each single call leaves `custom_latest_sent_icv` no smaller. -/
theorem generateIdentifiers_latest_le (inv : InvoiceIds) (company : CompanyCounters)
    (d : Nat) (ds u : String) :
    company.custom_latest_sent_icv.getD 0 ≤
      (generateIdentifiers inv company d ds u).2.1.custom_latest_sent_icv.getD 0 := by
  unfold generateIdentifiers
  by_cases h : truthyStr inv.custom_jofotara_id
  · rw [if_pos h]
  · rw [if_neg h]
    simp only [Option.getD_some]
    omega

theorem runAllocs_latest_mono :
    ∀ (calls : List AllocCall) (company : CompanyCounters),
      company.custom_latest_sent_icv.getD 0 ≤
        (runAllocs company calls).custom_latest_sent_icv.getD 0 := by
  intro calls
  induction calls with
  | nil => intro company; exact le_rfl
  | cons c cs ih =>
    intro company
    exact le_trans (generateIdentifiers_latest_le c.inv company c.currentDate c.dateStr c.newUuid)
      (ih _)

/-! ### The claims -/

/-- C1: a fresh allocation stores `max(starter_counter, latest_counter) + 1`
(missing counters read as 0) as the new `custom_latest_sent_icv`, strictly
above the previous value, and across any sequence of `generate_identifiers`
calls the stored value never decreases. -/
theorem C1_audit_counter (company : CompanyCounters) (inv : InvoiceIds)
    (d : Nat) (ds u : String) (h : truthyStr inv.custom_jofotara_id = false) :
    (generateIdentifiers inv company d ds u).2.1.custom_latest_sent_icv =
        some (max (company.custom_starter_icv.getD 0)
          (company.custom_latest_sent_icv.getD 0) + 1) ∧
      company.custom_latest_sent_icv.getD 0 <
        (generateIdentifiers inv company d ds u).2.1.custom_latest_sent_icv.getD 0 ∧
      ∀ calls : List AllocCall,
        company.custom_latest_sent_icv.getD 0 ≤
          (runAllocs company calls).custom_latest_sent_icv.getD 0 := by
  refine ⟨?_, ?_, fun calls => runAllocs_latest_mono calls company⟩
  · unfold generateIdentifiers
    rw [if_neg (by simp [h])]
  · unfold generateIdentifiers
    rw [if_neg (by simp [h])]
    simp only [Option.getD_some]
    omega

/-- C1 witness: a company with starter 10 and latest 5 allocates counter 11. -/
theorem C1_witness :
    truthyStr ((⟨none, none, none, none⟩ : InvoiceIds).custom_jofotara_id) = false ∧
      (generateIdentifiers ⟨none, none, none, none⟩
            ⟨"COR", some 10, some 5, some 7, some 3⟩ 7 "2024-01-01" "u").2.1.custom_latest_sent_icv =
        some (max ((some 10 : Option Nat).getD 0) ((some 5 : Option Nat).getD 0) + 1) :=
  ⟨rfl, (C1_audit_counter ⟨"COR", some 10, some 5, some 7, some 3⟩ ⟨none, none, none, none⟩
      7 "2024-01-01" "u" rfl).1⟩

/-- C2: when the invoice already carries a non-empty document id,
`generate_identifiers` returns exactly the stored triple and changes
neither the company counter state nor the invoice identifier fields. -/
theorem C2_retry_identity (inv : InvoiceIds) (company : CompanyCounters)
    (d : Nat) (ds u : String) (h : truthyStr inv.custom_jofotara_id = true) :
    generateIdentifiers inv company d ds u =
      (⟨inv.custom_jofotara_id, inv.custom_jofotara_uuid, inv.custom_jofotara_icv⟩,
        company, inv) := by
  unfold generateIdentifiers
  rw [if_pos h]

/-- C2 witness: an invoice with stored identifiers is returned verbatim
and the state is untouched. -/
theorem C2_witness :
    truthyStr (some "COR-2024-01-01-00001") = true ∧
      generateIdentifiers
          ⟨some "COR-2024-01-01-00001", some "uuid-1", some 9, some "Queued"⟩
          ⟨"COR", some 10, some 5, some 7, some 3⟩ 7 "2024-01-02" "u2" =
        (⟨some "COR-2024-01-01-00001", some "uuid-1", some 9⟩,
          ⟨"COR", some 10, some 5, some 7, some 3⟩,
          ⟨some "COR-2024-01-01-00001", some "uuid-1", some 9, some "Queued"⟩) :=
  ⟨rfl, C2_retry_identity
      ⟨some "COR-2024-01-01-00001", some "uuid-1", some 9, some "Queued"⟩
      ⟨"COR", some 10, some 5, some 7, some 3⟩ 7 "2024-01-02" "u2" rfl⟩

/-- C3: on a fresh allocation the stored `custom_last_daily_seq_no`
becomes 1 exactly when the stored date is unset or differs from the
current Jordan business date, and the previous value plus one (missing
read as 0) when the dates match. -/
theorem C3_daily_sequence (inv : InvoiceIds) (company : CompanyCounters)
    (d : Nat) (ds u : String) (h : truthyStr inv.custom_jofotara_id = false) :
    ((company.custom_last_daily_seq_date = none ∨
        company.custom_last_daily_seq_date ≠ some d) →
      (generateIdentifiers inv company d ds u).2.1.custom_last_daily_seq_no = some 1) ∧
      (company.custom_last_daily_seq_date = some d →
        (generateIdentifiers inv company d ds u).2.1.custom_last_daily_seq_no =
          some (company.custom_last_daily_seq_no.getD 0 + 1)) := by
  unfold generateIdentifiers
  rw [if_neg (by simp [h])]
  constructor
  · intro hdate
    rcases hld : company.custom_last_daily_seq_date with _ | d0
    · simp [hld]
    · rcases hdate with hnone | hne
      · rw [hld] at hnone
        exact absurd hnone (by simp)
      · rw [hld] at hne
        have hd0 : ¬d0 = d := fun hc => hne (by rw [hc])
        simp [hld, hd0]
  · intro hdate
    simp [hdate]

/-- C3 witness: stored date 7, current date 8 — the sequence resets to 1. -/
theorem C3_witness :
    truthyStr ((⟨none, none, none, none⟩ : InvoiceIds).custom_jofotara_id) = false ∧
      (generateIdentifiers ⟨none, none, none, none⟩
          ⟨"COR", some 10, some 5, some 7, some 3⟩ 8 "2024-01-02" "u").2.1.custom_last_daily_seq_no =
        some 1 :=
  ⟨rfl, (C3_daily_sequence ⟨none, none, none, none⟩ ⟨"COR", some 10, some 5, some 7, some 3⟩
      8 "2024-01-02" "u" rfl).1 (Or.inr (by decide))⟩

/-- C4: interpreting a completed attempt: transport failure → invoice
status Error; transport success with embedded business status `"ERROR"` →
Error, with the joined business messages in the log error text; otherwise
(PASS or WARNING) → Success, with the returned QR code stored. -/
theorem C4_two_layer_result (result : SendResult) :
    (result.success = false → (interpretSubmission result).invoice_status = "Error") ∧
      (result.success = true →
        (result.response.einv_results.getD ⟨none, []⟩).status = some "ERROR" →
        (interpretSubmission result).invoice_status = "Error" ∧
          (interpretSubmission result).log_error =
            some ("JoFotara Validation Error: " ++ String.intercalate "\n"
              ((result.response.einv_results.getD ⟨none, []⟩).errors.map
                fun e => e.einv_message.getD "Unknown Error"))) ∧
      (result.success = true →
        (result.response.einv_results.getD ⟨none, []⟩).status ≠ some "ERROR" →
        (interpretSubmission result).invoice_status = "Success" ∧
          (interpretSubmission result).qr = some (pyOrStr result.response.einv_qr "")) := by
  refine ⟨?_, ?_, ?_⟩
  · intro h
    simp [interpretSubmission, h]
  · intro hs herr
    simp [interpretSubmission, hs, herr]
  · intro hs herr
    simp [interpretSubmission, hs, herr]

/-- C4 witness: an HTTP-successful reply whose business result is an
explicit error yields status Error with the message logged. -/
theorem C4_witness :
    (({ success := true,
        response := ⟨some ⟨some "ERROR", [⟨some "bad tax"⟩]⟩, none, none, none⟩,
        error := none } : SendResult)).success = true ∧
      (interpretSubmission
          { success := true,
            response := ⟨some ⟨some "ERROR", [⟨some "bad tax"⟩]⟩, none, none, none⟩,
            error := none }).invoice_status = "Error" :=
  ⟨rfl, ((C4_two_layer_result
      { success := true,
        response := ⟨some ⟨some "ERROR", [⟨some "bad tax"⟩]⟩, none, none, none⟩,
        error := none }).2.1 rfl rfl).1⟩

/-- C5: the tax category of a processed line is `"S"` when its effective
rate is positive, `"Z"` when the rate is zero and the buyer country is
Jordan, and `"O"` when the rate is zero and the country is not Jordan. -/
theorem C5_tax_category (country : String) (rates : List ℚ) (idx : Nat) (item : RawItem) :
    (0 < itemTaxRate rates item →
        (processItem country rates idx item).tax_category = "S") ∧
      (itemTaxRate rates item = 0 → country = "Jordan" →
        (processItem country rates idx item).tax_category = "Z") ∧
      (itemTaxRate rates item = 0 → country ≠ "Jordan" →
        (processItem country rates idx item).tax_category = "O") := by
  refine ⟨?_, ?_, ?_⟩
  · intro h1
    simp [processItem, taxCategory, h1]
  · intro h1 h2
    simp [processItem, taxCategory, h1, h2]
  · intro h1 h2
    simp [processItem, taxCategory, h1, h2]

/-- C5 witness: a 16% line for a domestic buyer is standard-rated. -/
theorem C5_witness :
    (0 : ℚ) < itemTaxRate [] ⟨2, 20, some [16], "Nos", "widget"⟩ ∧
      (processItem "Jordan" [] 1 ⟨2, 20, some [16], "Nos", "widget"⟩).tax_category = "S" :=
  ⟨by simp [itemTaxRate], (C5_tax_category "Jordan" [] 1 ⟨2, 20, some [16], "Nos", "widget"⟩).1
      (by simp [itemTaxRate])⟩

/-- C6: the builder's totals satisfy: tax-exclusive is the sum of the
line extensions, total tax the sum of the line tax amounts, tax-inclusive
their sum, and payable is tax-inclusive minus the absolute quantized
invoice-level allowance, floored at zero. -/
theorem C6_invoice_totals (country : String) (rates : List ℚ)
    (items : List RawItem) (discount : ℚ) :
    (calculateTotals (processLineItems country rates items) discount).tax_exclusive =
        ((processLineItems country rates items).map fun i => i.line_extension).sum ∧
      (calculateTotals (processLineItems country rates items) discount).total_tax =
        ((processLineItems country rates items).map fun i => i.tax_amount).sum ∧
      (calculateTotals (processLineItems country rates items) discount).tax_inclusive =
        (calculateTotals (processLineItems country rates items) discount).tax_exclusive +
          (calculateTotals (processLineItems country rates items) discount).total_tax ∧
      (calculateTotals (processLineItems country rates items) discount).allowance_total =
        |toDecimal9 discount| ∧
      (calculateTotals (processLineItems country rates items) discount).payable =
        max ((calculateTotals (processLineItems country rates items) discount).tax_inclusive -
          (calculateTotals (processLineItems country rates items) discount).allowance_total) 0 := by
  have hmax : ∀ x : ℚ, (if x < 0 then (0 : ℚ) else x) = max x 0 := by
    intro x
    rcases lt_or_le x 0 with hx | hx
    · rw [if_pos hx, max_eq_right hx.le]
    · rw [if_neg (not_lt.mpr hx), max_eq_left hx]
  exact ⟨rfl, rfl, rfl, rfl, hmax _⟩

/-- C8: `_minify_xml` is idempotent — canonicalizing an already
canonical document returns it unchanged. -/
theorem C8_minify_idempotent (s : String) :
    minifyXmlStr (minifyXmlStr s) = minifyXmlStr s :=
  congrArg String.mk (minifyXml_idem s.data)

/-- C9 counterexample: two transport-successful HTTP-200 bodies that
carry no recognizable business result — a valid-JSON array, and an
object whose `EINV_RESULTS` value is null — make the `.get` chain raise
`AttributeError`, and the exception handler records Error, not the
Success the claim asserts for such bodies. -/
theorem C9_counterexample :
    statusFor200Body (Json.arr []) = "Error" ∧
      statusFor200Body (Json.obj [("EINV_RESULTS", Json.null)]) = "Error" :=
  ⟨rfl, rfl⟩

/-- C9 (amended): on an HTTP 200 reply, when the parsed body is an
object and its `EINV_RESULTS` value (defaulting to `{}`) is also an
object, the recorded status is Success exactly when the business status
value is not the exact string `"ERROR"` (a missing status reads as
null, so it yields Success); a body that is not valid JSON is wrapped
as an object without `EINV_RESULTS` and yields Success; but a
valid-JSON non-object body, or a non-object `EINV_RESULTS` value,
raises `AttributeError` and the exception handler records Error. -/
theorem C9_business_gate (body : Json) (rawText : String) :
    (∀ einv st, pyDictGet body "EINV_RESULTS" (Json.obj []) = some einv →
        pyDictGet einv "status" Json.null = some st →
        (statusFor200Body body = "Success" ↔ isErrorStr st = false)) ∧
      (pyDictGet body "EINV_RESULTS" (Json.obj []) = none →
        statusFor200Body body = "Error") ∧
      (∀ einv, pyDictGet body "EINV_RESULTS" (Json.obj []) = some einv →
        pyDictGet einv "status" Json.null = none →
        statusFor200Body body = "Error") ∧
      statusFor200Body (parsedOrWrapped none rawText) = "Success" := by
  refine ⟨?_, ?_, ?_, rfl⟩
  · intro einv st h1 h2
    unfold statusFor200Body
    simp only [h1, h2]
    cases hb : isErrorStr st
    · simp [hb]
    · simp [hb]
  · intro h1
    unfold statusFor200Body
    simp only [h1]
  · intro einv h1 h2
    unfold statusFor200Body
    simp only [h1, h2]

/-- C9 witness: an object body with business status `"PASS"` satisfies
both `.get` steps and is recorded as Success. -/
theorem C9_gate_witness :
    pyDictGet (Json.obj [("EINV_RESULTS", Json.obj [("status", Json.str "PASS")])])
        "EINV_RESULTS" (Json.obj []) = some (Json.obj [("status", Json.str "PASS")]) ∧
      pyDictGet (Json.obj [("status", Json.str "PASS")]) "status" Json.null =
        some (Json.str "PASS") ∧
      (statusFor200Body (Json.obj [("EINV_RESULTS", Json.obj [("status", Json.str "PASS")])]) =
          "Success" ↔ isErrorStr (Json.str "PASS") = false) :=
  ⟨rfl, rfl,
    (C9_business_gate (Json.obj [("EINV_RESULTS", Json.obj [("status", Json.str "PASS")])])
        "").1 (Json.obj [("status", Json.str "PASS")]) (Json.str "PASS") rfl rfl⟩

/-- C10: a zero-quantity line never divides by zero: the net unit price
is set to 0 and the recomputed line extension is 0, and the item record
is produced totally. -/
theorem C10_zero_qty_safe (country : String) (rates : List ℚ) (idx : Nat)
    (item : RawItem) (h : item.qty = 0) :
    (processItem country rates idx item).unit_price = 0 ∧
      (processItem country rates idx item).line_extension = 0 := by
  unfold processItem
  rw [h]
  simp [toDecimal9_zero]

/-- C10 witness: a line with quantity 0 and amount 50. -/
theorem C10_witness :
    (⟨0, 50, none, "Nos", "x"⟩ : RawItem).qty = 0 ∧
      (processItem "Jordan" [] 1 ⟨0, 50, none, "Nos", "x"⟩).unit_price = 0 ∧
      (processItem "Jordan" [] 1 ⟨0, 50, none, "Nos", "x"⟩).line_extension = 0 :=
  ⟨rfl, (C10_zero_qty_safe "Jordan" [] 1 ⟨0, 50, none, "Nos", "x"⟩ rfl).1,
    (C10_zero_qty_safe "Jordan" [] 1 ⟨0, 50, none, "Nos", "x"⟩ rfl).2⟩

end CorexFotara
